import Mathlib

/-
Verification of the basebox build/lifecycle modules.

The definitions below are a shallow embedding of the Python sources
(basebox/build.py, basebox/vagrant.py, basebox/util.py): pure fragments
become Lean functions, stateful fragments pass their state explicitly,
shell side effects are recorded as event traces, and Python exceptions
become an explicit error type.  External collaborators (the fabric env
dict, the connection cache, the vagrant installed-box registry, the
filesystem) are modelled at the boundary the spec gives them: as explicit
state values and oracle functions.
-/

namespace Basebox

/-- Python exceptions that the embedded code can raise. -/
inductive PyExc where
  /-- the opaque exception raised by a caller-supplied provisioning procedure -/
  | provisioning : PyExc
  /-- `raise Exception(result)` after a failed shell command -/
  | commandFailed (cmd : String) : PyExc
  | attributeError (attr : String) : PyExc
  | typeError (msg : String) : PyExc
  | valueError (msg : String) : PyExc
deriving DecidableEq, Repr

/-! ## Python dict model

A Python dict is modelled as an association list in insertion order.
`dictSet` is item assignment (replace in place or append), `dictUpdate`
is `dict.update`, `dictUpdate [] d` is the `dict(d)` copy. -/

/-- Association-list model of a Python `dict` with string keys and values. -/
abbrev Dict := List (String × String)

def dictGet (d : Dict) (k : String) : Option String :=
  (d.find? (fun p => p.1 = k)).map (fun p => p.2)

def dictMem (d : Dict) (k : String) : Bool :=
  d.any (fun p => p.1 = k)

def dictSet (d : Dict) (k v : String) : Dict :=
  if dictMem d k then d.map (fun p => if p.1 = k then (k, v) else p)
  else d ++ [(k, v)]

def dictUpdate (d : Dict) (u : Dict) : Dict :=
  u.foldl (fun acc p => dictSet acc p.1 p.2) d

/-- The keys of the dict are pairwise distinct (always true of a real
Python dict; an invariant of this list model). -/
def NodupKeys (d : Dict) : Prop := (d.map Prod.fst).Nodup

instance (d : Dict) : Decidable (NodupKeys d) := by
  unfold NodupKeys; infer_instance

lemma dictMem_eq_false_iff (d : Dict) (k : String) :
    dictMem d k = false ↔ ∀ p ∈ d, p.1 ≠ k := by
  simp [dictMem]

lemma dictSet_not_mem (d : Dict) (k v : String) (h : dictMem d k = false) :
    dictSet d k v = d ++ [(k, v)] := by
  simp [dictSet, h]

lemma dictUpdate_append_of_disjoint :
    ∀ (u acc : Dict), NodupKeys u → (∀ p ∈ u, dictMem acc p.1 = false) →
      dictUpdate acc u = acc ++ u := by
  intro u
  induction u with
  | nil => intro acc _ _; simp [dictUpdate]
  | cons p rest ih =>
    intro acc hnd hdis
    have hmem : dictMem acc p.1 = false := hdis p (by simp)
    have hnd' : NodupKeys rest := by
      simpa [NodupKeys] using (List.nodup_cons.mp hnd).2
    have hkey : ∀ q ∈ rest, q.1 ≠ p.1 := by
      intro q hq
      have := (List.nodup_cons.mp hnd).1
      intro hEq
      exact this (hEq ▸ List.mem_map_of_mem Prod.fst hq)
    have hdis' : ∀ q ∈ rest, dictMem (acc ++ [(p.1, p.2)]) q.1 = false := by
      intro q hq
      rw [dictMem_eq_false_iff]
      intro r hr
      rcases List.mem_append.mp hr with hin | hin
      · exact (dictMem_eq_false_iff acc q.1).mp (hdis q (by simp [hq])) r hin
      · simp at hin
        subst hin
        exact fun hEq => hkey q hq hEq.symm
    calc dictUpdate acc (p :: rest)
        = dictUpdate (dictSet acc p.1 p.2) rest := by simp [dictUpdate]
      _ = dictUpdate (acc ++ [(p.1, p.2)]) rest := by rw [dictSet_not_mem _ _ _ hmem]
      _ = (acc ++ [(p.1, p.2)]) ++ rest := ih _ hnd' hdis'
      _ = acc ++ (p :: rest) := by simp

/-- `dict(d)` (here: `env.clear(); env.update(snapshot)`) reproduces the
snapshot exactly when its keys are distinct. -/
lemma dictUpdate_nil (d : Dict) (h : NodupKeys d) : dictUpdate [] d = d := by
  simpa using dictUpdate_append_of_disjoint d [] h (by intro p _; rfl)

/-- Lookup of a member pair in a dict with distinct keys. -/
lemma dictGet_of_mem (d : Dict) (k v : String)
    (hnd : NodupKeys d) (hmem : (k, v) ∈ d) : dictGet d k = some v := by
  induction d with
  | nil => cases hmem
  | cons p rest ih =>
    rcases List.mem_cons.mp hmem with hEq | hin
    · subst hEq; simp [dictGet, List.find?]
    · have hne : p.1 ≠ k := by
        intro hEq
        have := (List.nodup_cons.mp hnd).1
        exact this (hEq ▸ List.mem_map_of_mem Prod.fst hin)
      have hrest : NodupKeys rest := by
        simpa [NodupKeys] using (List.nodup_cons.mp hnd).2
      have := ih hrest hin
      simpa [dictGet, List.find?, hne] using this

lemma dictGet_nil (k : String) : dictGet [] k = none := rfl

lemma dictGet_cons (q : String × String) (d : Dict) (k : String) :
    dictGet (q :: d) k = if q.1 = k then some q.2 else dictGet d k := by
  by_cases h : q.1 = k <;> simp [dictGet, List.find?, h]

lemma dictGet_append_single_ne (d : Dict) (k' v k : String) (h : k' ≠ k) :
    dictGet (d ++ [(k', v)]) k = dictGet d k := by
  induction d with
  | nil => simp [dictGet_cons, h, dictGet_nil]
  | cons p rest ih => by_cases hp : p.1 = k <;> simp [dictGet_cons, hp, ih]

lemma dictGet_append_single_self (d : Dict) (k v : String)
    (h : dictMem d k = false) : dictGet (d ++ [(k, v)]) k = some v := by
  induction d with
  | nil => simp [dictGet_cons, dictGet_nil]
  | cons p rest ih =>
    have hp : ¬ p.1 = k := by
      intro hEq
      simp [dictMem, hEq] at h
    have hrest : dictMem rest k = false := by
      simp [dictMem] at h ⊢
      exact h.2
    simp [dictGet_cons, hp, ih hrest]

lemma dictGet_map_replace_self (d : Dict) (k v : String) (h : dictMem d k = true) :
    dictGet (d.map (fun p => if p.1 = k then (k, v) else p)) k = some v := by
  induction d with
  | nil => simp [dictMem] at h
  | cons p rest ih =>
    by_cases hp : p.1 = k
    · simp [List.map_cons, hp, dictGet_cons]
    · have hrest : dictMem rest k = true := by
        simp [dictMem, hp] at h
        simp [dictMem]
        exact h
      simp [List.map_cons, hp, dictGet_cons, ih hrest]

lemma dictGet_map_replace_ne (d : Dict) (k' v k : String) (h : k' ≠ k) :
    dictGet (d.map (fun p => if p.1 = k' then (k', v) else p)) k = dictGet d k := by
  induction d with
  | nil => rfl
  | cons p rest ih =>
    by_cases hp : p.1 = k'
    · have hne : ¬ p.1 = k := by rw [hp]; exact h
      simp [List.map_cons, hp, dictGet_cons, h, hne, ih]
    · by_cases hpk : p.1 = k <;>
        simp [List.map_cons, hp, dictGet_cons, hpk, Ne.symm h, ih]

lemma dictGet_dictSet_self (d : Dict) (k v : String) :
    dictGet (dictSet d k v) k = some v := by
  by_cases h : dictMem d k
  · simp only [dictSet, h, if_true]
    exact dictGet_map_replace_self d k v h
  · rw [dictSet_not_mem d k v (by simpa using h)]
    exact dictGet_append_single_self d k v (by simpa using h)

lemma dictGet_dictSet_ne (d : Dict) (k' v k : String) (h : k' ≠ k) :
    dictGet (dictSet d k' v) k = dictGet d k := by
  by_cases hm : dictMem d k'
  · simp only [dictSet, hm, if_true]
    exact dictGet_map_replace_ne d k' v k h
  · rw [dictSet_not_mem d k' v (by simpa using hm)]
    exact dictGet_append_single_ne d k' v k h

lemma dictGet_dictUpdate_not_mem (u : Dict) :
    ∀ (d : Dict) (k : String), (∀ p ∈ u, p.1 ≠ k) →
      dictGet (dictUpdate d u) k = dictGet d k := by
  induction u with
  | nil => intro d k _; rfl
  | cons p rest ih =>
    intro d k hne
    have h1 : p.1 ≠ k := hne p (by simp)
    calc dictGet (dictUpdate (dictSet d p.1 p.2) rest) k
        = dictGet (dictSet d p.1 p.2) k := ih _ _ (fun q hq => hne q (by simp [hq]))
      _ = dictGet d k := dictGet_dictSet_ne d p.1 p.2 k h1

lemma dictGet_dictUpdate_mem (u : Dict) :
    ∀ (d : Dict) (k v : String), NodupKeys u → (k, v) ∈ u →
      dictGet (dictUpdate d u) k = some v := by
  induction u with
  | nil => intro d k v _ h; cases h
  | cons p rest ih =>
    intro d k v hnd hmem
    rcases List.mem_cons.mp hmem with hEq | hin
    · subst hEq
      have hrest : ∀ q ∈ rest, q.1 ≠ k := by
        intro q hq hEq
        have hk : k ∈ rest.map Prod.fst := by
          rw [← hEq]
          exact List.mem_map_of_mem Prod.fst hq
        exact (List.nodup_cons.mp hnd).1 hk
      calc dictGet (dictUpdate (dictSet d k v) rest) k
          = dictGet (dictSet d k v) k := dictGet_dictUpdate_not_mem rest _ _ hrest
        _ = some v := dictGet_dictSet_self d k v
    · exact ih _ _ _ (by simpa [NodupKeys] using (List.nodup_cons.mp hnd).2) hin

/-! ## Python string helpers (str / re methods used by the sources) -/

/-- Python `\s` for byte strings: space, tab, newline, carriage return,
vertical tab, form feed. -/
def pyIsSpace (c : Char) : Bool :=
  c = ' ' || c = '\t' || c = '\n' || c = '\r' || c = '\x0b' || c = '\x0c'

/-- Python `str.strip()`. -/
def pyStrip (s : String) : String :=
  String.mk (((s.data.dropWhile pyIsSpace).reverse.dropWhile pyIsSpace).reverse)

/-- Python `str.lower()` (byte strings lowercase ASCII letters only). -/
def pyLower (s : String) : String :=
  String.mk (s.data.map Char.toLower)

/-- Python `str.splitlines()` worker: accumulates the current line in
reverse; terminators are `\n`, `\r` and `\r\n`; no trailing empty line. -/
def pySplitlinesAux : List Char → List Char → List String
  | [], acc => if acc.isEmpty then [] else [String.mk acc.reverse]
  | '\r' :: '\n' :: rest, acc => String.mk acc.reverse :: pySplitlinesAux rest []
  | '\r' :: rest, acc => String.mk acc.reverse :: pySplitlinesAux rest []
  | '\n' :: rest, acc => String.mk acc.reverse :: pySplitlinesAux rest []
  | c :: rest, acc => pySplitlinesAux rest (c :: acc)

/-- Python `str.splitlines()`. -/
def pySplitlines (s : String) : List String :=
  pySplitlinesAux s.data []

/-- Python `s.split(" ", 1)`: at most one split, at the first space. -/
def pySplitSpace1 (s : String) : List String :=
  let before := s.data.takeWhile (fun c => c ≠ ' ')
  let rest := s.data.dropWhile (fun c => c ≠ ' ')
  match rest with
  | [] => [String.mk before]
  | _ :: after => [String.mk before, String.mk after]

/-- Python `re.split("\s+", s)` worker.  The flag records whether we are
inside a whitespace run; pieces before, between and after the runs are
produced, including empty leading and trailing pieces. -/
def reSplitWSAux : Bool → List Char → List Char → List (List Char)
  | skipping, [], acc => if skipping then [[]] else [acc.reverse]
  | skipping, c :: rest, acc =>
    if skipping then
      if pyIsSpace c then reSplitWSAux true rest []
      else reSplitWSAux false rest [c]
    else
      if pyIsSpace c then acc.reverse :: reSplitWSAux true rest []
      else reSplitWSAux false rest (c :: acc)

/-- Python `re.split("\s+", s)`. -/
def reSplitWS (s : String) : List String :=
  (reSplitWSAux false s.data []).map String.mk

/-! ## Decimal formatting: the Python format `"%03i" % n`

`decCharsAux` produces the decimal digits of `n` little-endian (fuel-indexed
so the recursion is structural; `fuel = n` always suffices since `n / 10`
shrinks).  `fmt03` zero-pads the decimal representation to width 3, exactly
as the `%03i` conversion does for non-negative values. -/

def digitChar (d : Nat) : Char := Char.ofNat (48 + d)

def charVal (c : Char) : Nat := c.toNat - 48

def decCharsAux : Nat → Nat → List Char
  | _, 0 => []
  | 0, _ + 1 => []
  | fuel + 1, n + 1 => digitChar ((n + 1) % 10) :: decCharsAux fuel ((n + 1) / 10)

/-- Decimal representation of `n`, most significant digit first. -/
def decRepr (n : Nat) : List Char :=
  if n = 0 then ['0'] else (decCharsAux n n).reverse

/-- `"%03i" % n` for a natural number, as a character list. -/
def fmt03 (n : Nat) : List Char :=
  List.replicate (3 - (decRepr n).length) '0' ++ decRepr n

lemma charVal_digitChar (d : Nat) (h : d < 10) : charVal (digitChar d) = d := by
  interval_cases d <;> decide

/-- Value of a little-endian digit-character list. -/
def decValue : List Char → Nat
  | [] => 0
  | c :: cs => charVal c + 10 * decValue cs

lemma decValue_decCharsAux : ∀ fuel n, n ≤ fuel → decValue (decCharsAux fuel n) = n := by
  intro fuel
  induction fuel with
  | zero =>
    intro n h
    interval_cases n
    rfl
  | succ f ih =>
    intro n h
    match n with
    | 0 => rfl
    | n + 1 =>
      have hdivlt : (n + 1) / 10 < n + 1 := Nat.div_lt_self (by omega) (by omega)
      have hdiv : (n + 1) / 10 ≤ f := by omega
      have hmod : (n + 1) % 10 < 10 := Nat.mod_lt _ (by omega)
      simp only [decCharsAux, decValue, charVal_digitChar _ hmod, ih _ hdiv]
      omega

lemma decCharsAux_ne_nil (fuel n : Nat) (hn : n ≠ 0) (hle : n ≤ fuel) :
    decCharsAux fuel n ≠ [] := by
  match fuel, n with
  | _, 0 => exact absurd rfl hn
  | 0, n + 1 => omega
  | f + 1, n + 1 => simp [decCharsAux]

lemma decRepr_inj {m n : Nat} (h : decRepr m = decRepr n) : m = n := by
  unfold decRepr at h
  by_cases hm : m = 0 <;> by_cases hn : n = 0 <;> simp [hm, hn] at h ⊢
  · -- m = 0, n > 0: reversed digits of n equal ['0'], so n = 0
    have : decValue (decCharsAux n n) = n := decValue_decCharsAux n n le_rfl
    rw [← List.reverse_inj] at h
    simp at h
    rw [← h] at this
    simp [decValue, charVal] at this
    omega
  · have : decValue (decCharsAux m m) = m := decValue_decCharsAux m m le_rfl
    rw [← List.reverse_inj] at h
    simp at h
    rw [h] at this
    simp [decValue, charVal] at this
    omega
  · have hm' : decValue (decCharsAux m m) = m := decValue_decCharsAux m m le_rfl
    have hn' : decValue (decCharsAux n n) = n := decValue_decCharsAux n n le_rfl
    rw [← List.reverse_inj] at h
    simp at h
    rw [h] at hm'
    omega

/-- The most significant digit of a positive number is not the zero digit. -/
lemma decCharsAux_getLast : ∀ fuel n, n ≠ 0 → n ≤ fuel →
    ∃ d, d < 10 ∧ d ≠ 0 ∧ (decCharsAux fuel n).getLast? = some (digitChar d) := by
  intro fuel
  induction fuel with
  | zero => intro n h hle; omega
  | succ f ih =>
    intro n hn hle
    match n with
    | 0 => exact absurd rfl hn
    | n + 1 =>
      by_cases hq : (n + 1) / 10 = 0
      · have hlt10 : n + 1 < 10 := (Nat.div_eq_zero_iff (by omega)).mp hq
        refine ⟨(n + 1) % 10, Nat.mod_lt _ (by omega), ?_, ?_⟩
        · rw [Nat.mod_eq_of_lt hlt10]
          omega
        · simp [decCharsAux, hq]
      · have hdivlt : (n + 1) / 10 < n + 1 := Nat.div_lt_self (by omega) (by omega)
        obtain ⟨d, hd10, hd0, hlast⟩ := ih ((n + 1) / 10) hq (by omega)
        refine ⟨d, hd10, hd0, ?_⟩
        have hne : decCharsAux f ((n + 1) / 10) ≠ [] :=
          decCharsAux_ne_nil f _ hq (by omega)
        obtain ⟨c, cs, hcs⟩ := List.exists_cons_of_ne_nil hne
        simp only [decCharsAux, hcs, List.getLast?_cons_cons]
        rw [hcs] at hlast
        exact hlast

lemma decRepr_ne_nil (n : Nat) : decRepr n ≠ [] := by
  unfold decRepr
  by_cases h : n = 0
  · simp [h]
  · simpa [h] using fun hEq => decCharsAux_ne_nil n n h le_rfl (by simpa using hEq)

lemma decRepr_head_not_zero (n : Nat) (hn : n ≠ 0) :
    ∃ d, d < 10 ∧ d ≠ 0 ∧ (decRepr n).head? = some (digitChar d) := by
  obtain ⟨d, hd10, hd0, hlast⟩ := decCharsAux_getLast n n hn le_rfl
  exact ⟨d, hd10, hd0, by simpa [decRepr, hn, List.head?_reverse] using hlast⟩

lemma digitChar_ne_zeroChar (d : Nat) (hd10 : d < 10) (hd0 : d ≠ 0) :
    digitChar d ≠ '0' := by
  interval_cases d <;> simp_all <;> decide

/-- Helper for `fmt03_inj`: if the representation of `m` is strictly
shorter, padding equality forces a leading zero digit on `n`. -/
lemma fmt03_inj_aux {m n : Nat}
    (h : List.replicate (3 - (decRepr m).length) '0' ++ decRepr m =
         List.replicate (3 - (decRepr n).length) '0' ++ decRepr n)
    (hlt : (decRepr m).length < (decRepr n).length) : False := by
  have hlen := congrArg List.length h
  simp only [List.length_append, List.length_replicate] at hlen
  have hmle : (decRepr m).length ≤ 3 := by omega
  have hnle : (decRepr n).length ≤ 3 := by omega
  have hdrop := congrArg (List.drop (3 - (decRepr n).length)) h
  rw [List.drop_append_of_le_length (by simp only [List.length_replicate]; omega),
      List.drop_append_of_le_length (by simp only [List.length_replicate]; omega)] at hdrop
  simp only [List.drop_replicate, Nat.sub_self, List.replicate_zero,
    List.nil_append] at hdrop
  have hpos : 0 < (3 - (decRepr m).length) - (3 - (decRepr n).length) := by omega
  obtain ⟨k, hk⟩ : ∃ k, (3 - (decRepr m).length) - (3 - (decRepr n).length) = k + 1 :=
    ⟨_, (Nat.succ_pred_eq_of_pos hpos).symm⟩
  rw [hk, List.replicate_succ] at hdrop
  have hhead : (decRepr n).head? = some '0' := by
    rw [← hdrop]
    rfl
  have hn0 : n ≠ 0 := by
    intro h0
    subst h0
    have h1 : (decRepr 0).length = 1 := by simp [decRepr]
    rw [h1] at hlt
    exact decRepr_ne_nil m (List.length_eq_zero.mp (by omega))
  obtain ⟨d, hd10, hd0, hhd⟩ := decRepr_head_not_zero n hn0
  rw [hhd] at hhead
  exact digitChar_ne_zeroChar d hd10 hd0 (by injection hhead)

lemma fmt03_inj {m n : Nat} (h : fmt03 m = fmt03 n) : m = n := by
  unfold fmt03 at h
  rcases Nat.lt_trichotomy (decRepr m).length (decRepr n).length with hlt | hEq | hgt
  · exact absurd (fmt03_inj_aux h hlt) (by simp)
  · -- equal lengths: the padded prefixes coincide, so the digits coincide
    have hpair := List.append_inj h (by simp only [List.length_replicate, hEq])
    exact decRepr_inj hpair.2
  · exact absurd (fmt03_inj_aux h.symm hgt) (by simp)

/-! ## Unique box naming (`Base.find_unique_name`, build.py)

The source probes `basename`, `basename-001`, `basename-002`, ... against
`installed_boxes()` in a `while` loop and returns the first unused name.
`candidate b k` is the k-th probed name; the loop is embedded with an
explicit fuel argument, and `boxes.length + 1` fuel is proved sufficient
(the probed names are pairwise distinct, so by pigeonhole one of the first
`boxes.length + 1` of them is not installed). -/

/-- The k-th candidate name probed by the loop in `find_unique_name`:
the basename itself, then `basename-001`, `basename-002`, ... -/
def candidate (b : String) : Nat → String
  | 0 => b
  | k + 1 => b ++ "-" ++ String.mk (fmt03 (k + 1))

lemma string_append_data (s t : String) : (s ++ t).data = s.data ++ t.data := rfl

lemma candidate_length (b : String) (k : Nat) :
    (candidate b (k + 1)).length = b.length + 1 + (fmt03 (k + 1)).length := by
  show ((b ++ "-" ++ String.mk (fmt03 (k + 1))).data).length = _
  simp [string_append_data]
  omega

lemma fmt03_length_pos (n : Nat) : 0 < (fmt03 n).length := by
  have := decRepr_ne_nil n
  simp only [fmt03, List.length_append, List.length_replicate]
  have : 0 < (decRepr n).length := List.length_pos.mpr this
  omega

lemma candidate_inj (b : String) {j k : Nat} (h : candidate b j = candidate b k) :
    j = k := by
  match j, k with
  | 0, 0 => rfl
  | 0, k + 1 =>
    exfalso
    have hlen := congrArg String.length h
    have h0 : (candidate b 0).length = b.length := rfl
    rw [h0, candidate_length] at hlen
    have := fmt03_length_pos (k + 1)
    omega
  | j + 1, 0 =>
    exfalso
    have hlen := congrArg String.length h
    have h0 : (candidate b 0).length = b.length := rfl
    rw [h0, candidate_length] at hlen
    have := fmt03_length_pos (j + 1)
    omega
  | j + 1, k + 1 =>
    have hdata := congrArg String.data h
    simp only [candidate, string_append_data] at hdata
    rw [List.append_assoc, List.append_assoc] at hdata
    have htail := (List.append_inj hdata rfl).2
    have hfmt : fmt03 (j + 1) = fmt03 (k + 1) := (List.append_inj htail rfl).2
    have := fmt03_inj hfmt
    omega

/-- By pigeonhole, among the first `boxes.length + 1` candidates one is
not installed. -/
lemma exists_candidate_free (b : String) (boxes : List String) :
    ∃ k, k ≤ boxes.length ∧ candidate b k ∉ boxes := by
  by_contra hall
  push_neg at hall
  have hinj : Set.InjOn (candidate b) ↑(Finset.range (boxes.length + 1)) := by
    intro x _ y _ hxy
    exact candidate_inj b hxy
  have hmaps : ∀ k ∈ Finset.range (boxes.length + 1), candidate b k ∈ boxes.toFinset := by
    intro k hk
    rw [List.mem_toFinset]
    exact hall k (by simpa using Nat.lt_succ_iff.mp (Finset.mem_range.mp hk))
  have hcard := Finset.card_le_card_of_injOn (candidate b) hmaps hinj
  rw [Finset.card_range] at hcard
  have := boxes.toFinset_card_le
  omega

/-- The probing loop of `find_unique_name`: starting at candidate index
`k`, return the first candidate not in `boxes`, with explicit fuel. -/
def findUniqueLoop (b : String) (boxes : List String) : Nat → Nat → String
  | 0, k => candidate b k
  | fuel + 1, k =>
    if candidate b k ∈ boxes then findUniqueLoop b boxes fuel (k + 1)
    else candidate b k

/-- `Base.find_unique_name` (build.py): the first name among
`basename`, `basename-001`, `basename-002`, ... not currently installed.
The fuel `boxes.length + 1` provably suffices (`exists_candidate_free`). -/
def find_unique_name (b : String) (boxes : List String) : String :=
  findUniqueLoop b boxes (boxes.length + 1) 0

lemma findUniqueLoop_spec (b : String) (boxes : List String) :
    ∀ fuel k, (∃ j, k ≤ j ∧ j < k + fuel ∧ candidate b j ∉ boxes) →
      ∃ j, findUniqueLoop b boxes fuel k = candidate b j ∧
        candidate b j ∉ boxes ∧ k ≤ j ∧
        ∀ i, k ≤ i → i < j → candidate b i ∈ boxes := by
  intro fuel
  induction fuel with
  | zero =>
    intro k hfree
    obtain ⟨j, hkj, hjlt, _⟩ := hfree
    omega
  | succ f ih =>
    intro k hfree
    by_cases hmem : candidate b k ∈ boxes
    · obtain ⟨j, hkj, hjlt, hjfree⟩ := hfree
      have hne : j ≠ k := fun hEq => hjfree (hEq ▸ hmem)
      obtain ⟨j', hj', hfree', hk', hmin'⟩ :=
        ih (k + 1) ⟨j, by omega, by omega, hjfree⟩
      refine ⟨j', ?_, hfree', by omega, ?_⟩
      · simpa [findUniqueLoop, hmem] using hj'
      · intro i hki hij
        rcases Nat.eq_or_lt_of_le hki with hEq | hlt
        · exact hEq ▸ hmem
        · exact hmin' i hlt hij
    · exact ⟨k, by simp [findUniqueLoop, hmem], hmem, le_rfl, fun i h1 h2 => by omega⟩

/-- The name chosen by `find_unique_name` is the first unused candidate:
it is not installed, and every earlier candidate is installed. -/
lemma find_unique_name_spec (b : String) (boxes : List String) :
    ∃ k, find_unique_name b boxes = candidate b k ∧
      candidate b k ∉ boxes ∧ ∀ i, i < k → candidate b i ∈ boxes := by
  obtain ⟨j, hle, hfree⟩ := exists_candidate_free b boxes
  obtain ⟨k, hEq, hkfree, _, hmin⟩ :=
    findUniqueLoop_spec b boxes (boxes.length + 1) 0 ⟨j, by omega, by omega, hfree⟩
  exact ⟨k, hEq, hkfree, fun i hi => hmin i (by omega) hi⟩

lemma find_unique_name_not_mem (b : String) (boxes : List String)
    (h : b ∉ boxes) : find_unique_name b boxes = b := by
  have : candidate b 0 ∈ boxes → False := by simpa [candidate] using h
  simp [find_unique_name, findUniqueLoop, candidate, h]

/-! ## Path and URL helpers (`os.path`, `urlparse` as used by build.py) -/

/-- Python `s.rfind(c)`: index of the last occurrence, or -1. -/
def pyRfind (cs : List Char) (c : Char) : Int :=
  match (cs.enum.filter (fun p => p.2 = c)).getLast? with
  | some p => (p.1 : Int)
  | none => -1

/-- `os.path.basename`: everything after the last slash. -/
def pyBasename (p : String) : String :=
  String.mk (p.data.drop (pyRfind p.data '/' + 1).toNat)

/-- The root part of `os.path.splitext` (posixpath `_splitext`): strip the
extension after the last dot of the final path component, unless that
component consists only of leading dots up to it. -/
def pySplitextRoot (p : String) : String :=
  let cs := p.data
  let sepIndex := pyRfind cs '/'
  let dotIndex := pyRfind cs '.'
  if sepIndex < dotIndex then
    if ((cs.take dotIndex.toNat).drop (sepIndex + 1).toNat).any (fun c => c ≠ '.') then
      String.mk (cs.take dotIndex.toNat)
    else p
  else p

/-- Result record of `urlparse.urlsplit`. -/
structure SplitResult where
  scheme : String
  netloc : String
  path : String
  query : String
  fragment : String
deriving DecidableEq, Repr

def scheme_chars : List Char :=
  "abcdefghijklmnopqrstuvwxyzABCDEFGHIJKLMNOPQRSTUVWXYZ0123456789+-.".data

/-- Python `s.find(c)`: index of the first occurrence, or -1. -/
def pyFind (cs : List Char) (c : Char) : Int :=
  match cs.findIdx? (fun x => x = c) with
  | some i => (i : Int)
  | none => -1

/-- `urlparse._splitnetloc(url, 2)` after the two leading slashes are
dropped: the netloc runs to the first of `/`, `?` or `#`. -/
def splitnetloc (cs : List Char) : List Char × List Char :=
  (cs.takeWhile (fun c => c ≠ '/' && c ≠ '?' && c ≠ '#'),
   cs.dropWhile (fun c => c ≠ '/' && c ≠ '?' && c ≠ '#'))

/-- The bracket condition under which `urlsplit` raises "Invalid IPv6 URL". -/
def ipv6Invalid (netloc : List Char) : Bool :=
  (netloc.contains '[' && !netloc.contains ']') ||
  (netloc.contains ']' && !netloc.contains '[')

/-- `url.split(c, 1)` as the pair (before, after); after is empty when the
separator is absent, matching the unsplit Python branch. -/
def splitOnceChar (c : Char) (cs : List Char) : List Char × List Char :=
  let before := cs.takeWhile (fun x => x ≠ c)
  let rest := cs.dropWhile (fun x => x ≠ c)
  match rest with
  | [] => (before, [])
  | _ :: after => (before, after)

/-- Common tail of `urlsplit` once scheme handling is done: optional
netloc (after `//`), then fragment split at the first `#`, then query
split at the first `?`. -/
def urlsplitAfterScheme (scheme : List Char) (url : List Char) : Option SplitResult :=
  let step :=
    if url.take 2 = ['/', '/'] then
      let (nl, rest) := splitnetloc (url.drop 2)
      if ipv6Invalid nl then none else some (nl, rest)
    else some ([], url)
  match step with
  | none => none
  | some (nl, rest) =>
    let (rest1, frag) := splitOnceChar '#' rest
    let (path, query) := splitOnceChar '?' rest1
    some ⟨String.mk scheme, String.mk nl, String.mk path,
          String.mk query, String.mk frag⟩

/-- Python 2.7 `urlparse.urlsplit(url)` with default arguments (cache
omitted); `none` models the "Invalid IPv6 URL" ValueError. -/
def urlsplit (url : String) : Option SplitResult :=
  let cs := url.data
  let i := pyFind cs ':'
  if i > 0 then
    let pre := cs.take i.toNat
    if pre = "http".data then
      -- the optimized common case
      urlsplitAfterScheme (pre.map Char.toLower) (cs.drop (i.toNat + 1))
    else if pre.all (fun c => scheme_chars.contains c) then
      -- make sure "url" is not actually a port number, in which case
      -- "scheme" is really part of the path
      let rest := cs.drop (i.toNat + 1)
      if rest.isEmpty || rest.any (fun c => !("0123456789".data.contains c)) then
        urlsplitAfterScheme (pre.map Char.toLower) rest
      else
        urlsplitAfterScheme [] cs
    else urlsplitAfterScheme [] cs
  else urlsplitAfterScheme [] cs

/-! ## Image resolver: `Base` (build.py)

`installed_boxes` is imported by build.py from `.vagrant` but is not
defined anywhere in the sources.  Modelled from the spec: the
externally-installed-image registry is an unordered set of name strings,
read as a listing; it is threaded through as an explicit `boxes` list. -/

/-- Shell-visible events of the build orchestration, in program order. -/
inductive Event where
  | boxAdd (name source : String)
  | boxRemove (name : String)
  | mktemp
  | writeVagrantfile
  | bringUp
  | enterOverlay
  | provisionCall
  | exitOverlay
  | packageCmd
  | destroyCmd (force : Bool)
  | unregisterCmd (delete : Bool)
  | rmBuildDir
deriving DecidableEq, Repr

/-- `Base` (build.py): a box name, file path or URL together with its
staging state. -/
structure Base where
  box_string : String
  name : Option String
  url : Option String
  installed : Bool
  originally_installed : Bool
  basename : String
deriving DecidableEq, Repr

/-- `Base.__init__` (build.py).  `boxes` models `installed_boxes()` (see
above), `fileExists` is the filesystem oracle behind `cuisine.file_exists`.
`none` models a `urlparse.urlsplit` ValueError escaping the constructor. -/
def Base.init (string : String) (boxes : List String) (fileExists : String → Bool) :
    Option Base :=
  if string ∈ boxes then
    some ⟨string, some string, none, true, true, string⟩
  else if fileExists string then
    some ⟨string, none, some string, false, false,
      pyBasename (pySplitextRoot string)⟩
  else
    (urlsplit string).map fun sr =>
      ⟨string, none, some string, false, false,
        pyBasename (pySplitextRoot sr.path)⟩

/-- Python `or` where the left operand is an optional string (both `None`
and the empty string are falsy). -/
def pyOrStr : Option String → String → String
  | none, d => d
  | some s, d => if s = "" then d else s

/-- Python `"%s" % v` for an optional string (`None` prints as "None"). -/
def fmtOptStr : Option String → String
  | none => "None"
  | some s => s

/-- `Base.ensure` (build.py): unless already installed, pick a unique name
and run `vagrant box add`.  Returns the updated `Base`, the updated
registry and the events performed. -/
def Base.ensure (b : Base) (boxes : List String) : Base × List String × List Event :=
  if b.installed then (b, boxes, [])
  else
    let name := pyOrStr b.name (find_unique_name b.basename boxes)
    ({ b with name := some name, installed := true },
     boxes ++ [name], [.boxAdd name b.box_string])

/-- `Base.clean` (build.py): run `vagrant box remove` iff this build
installed the image (`installed and not originally_installed`). -/
def Base.clean (b : Base) (boxes : List String) : List String × List Event :=
  if b.installed && !b.originally_installed then
    (boxes.erase (fmtOptStr b.name), [.boxRemove (fmtOptStr b.name)])
  else (boxes, [])

/-! ## `VagrantContext.uuid` and its shared cache (vagrant.py)

`_uuid = {}` is a class attribute of `VagrantContext`: one dict object is
shared by every instance, and `self._uuid[vm] = ...` mutates that shared
dict, keyed by the `vm` argument only.  It is therefore modelled as a
state value independent of the context instance. -/

/-- The class-level `_uuid` dict: keyed by the `vm` argument (which may be
`None`), holding the value of `runinfo["active"].get(...)` (which may
also be `None`). -/
abbrev UuidCache := List (Option String × Option String)

def uuidCacheGet (c : UuidCache) (vm : Option String) : Option String :=
  match c.find? (fun p => p.1 = vm) with
  | some p => p.2
  | none => none

def uuidCacheSet (c : UuidCache) (vm : Option String) (v : Option String) : UuidCache :=
  if c.any (fun p => p.1 = vm) then c.map (fun p => if p.1 = vm then (vm, v) else p)
  else c ++ [(vm, v)]

/-- Python truthiness of `self._uuid.get(vm)`: `None` and the empty
string are falsy. -/
def optTruthy : Option String → Bool
  | none => false
  | some s => !(s == "")

lemma uuidCacheGet_cons (q : Option String × Option String) (c : UuidCache)
    (vm : Option String) :
    uuidCacheGet (q :: c) vm = if q.1 = vm then q.2 else uuidCacheGet c vm := by
  by_cases h : q.1 = vm <;> simp [uuidCacheGet, List.find?, h]

lemma uuidCacheGet_set_self (c : UuidCache) (vm v : Option String) :
    uuidCacheGet (uuidCacheSet c vm v) vm = v := by
  induction c with
  | nil => simp [uuidCacheSet, uuidCacheGet_cons, uuidCacheGet]
  | cons p rest ih =>
    by_cases hp : p.1 = vm
    · have hany : (p :: rest).any (fun q => q.1 = vm) = true := by
        simp [hp]
      simp [uuidCacheSet, hany, List.map_cons, hp, uuidCacheGet_cons]
    · cases han : rest.any (fun q => q.1 = vm) with
      | true =>
        have hany : (p :: rest).any (fun q => q.1 = vm) = true := by
          simp [han]
        have ih2 : uuidCacheGet (rest.map (fun q => if q.1 = vm then (vm, v) else q)) vm = v := by
          have h3 := ih
          simp only [uuidCacheSet, han, if_true] at h3
          exact h3
        simp [uuidCacheSet, hany, List.map_cons, hp, uuidCacheGet_cons, ih2]
      | false =>
        have hany : (p :: rest).any (fun q => q.1 = vm) = false := by
          simp [hp, han]
        have ih2 : uuidCacheGet (rest ++ [(vm, v)]) vm = v := by
          have h3 := ih
          simp only [uuidCacheSet, han, Bool.false_eq_true, if_false] at h3
          exact h3
        simp [uuidCacheSet, hany, List.cons_append, uuidCacheGet_cons, hp, ih2]

/-- A `VagrantContext` instance, reduced to the attribute the `uuid`
method reads. -/
structure VagrantCtx where
  directory : String
deriving DecidableEq, Repr

/-- `VagrantContext.uuid` (vagrant.py).  `runstate` is the oracle for the
`.vagrant` runstate file of a directory (`runinfo["active"].get(key)`);
`runfileExists` tells whether that file exists before the call — when it
does not, the source calls `self.up(vm=vm)` first, whose own nested
`uuid` call caches the same runstate value, so the net cache effect is
one write of that value.  Returns the result, the updated shared cache,
whether a bring-up was issued, and whether this context's runstate was
read (i.e. whether the identifier was resolved rather than served from
the cache). -/
def VagrantCtx.uuid (runstate : String → String → Option String)
    (runfileExists : String → Bool) (ctx : VagrantCtx) (vm : Option String)
    (cache : UuidCache) : Option String × UuidCache × Bool × Bool :=
  if optTruthy (uuidCacheGet cache vm) then
    (uuidCacheGet cache vm, cache, false, false)
  else
    let upIssued := !runfileExists ctx.directory
    let v := runstate ctx.directory (pyOrStr vm "default")
    (v, uuidCacheSet cache vm v, upIssued, true)

/-! ## Connection overlay: `_VagrantConnectionManager` (vagrant.py) -/

/-- `VagrantContext._connection_settings` (vagrant.py): the env override
dict pointing fabric at the synthetic host of the disposable VM.  `uuid`
is the resolved instance identifier, `user` and `port` come from the
parsed ssh parameters; the deep-copied `_ssh_config` object is opaque
here. -/
def connection_settings (uuid user port : String) : Dict :=
  [("use_ssh_config", "True"),
   ("host", "vagrant-temporary-" ++ uuid),
   ("host_string", user ++ "@" ++ ("vagrant-temporary-" ++ uuid) ++ ":" ++ port),
   ("_ssh_config", "modified-ssh-config"),
   ("cwd", ""),
   ("path", "")]

/-- State of the external fabric collaborator at the spec boundary: the
global `env` targeting dict and the keys of the transport-session cache. -/
structure FabricState where
  env : Dict
  connections : List String
deriving DecidableEq, Repr

/-- `_VagrantConnectionManager.__init__` (vagrant.py): compute the
overrides, snapshot `dict(env)` into `original_settings`, then
`env.update(overrides)`.  Returns the snapshot and the new state. -/
def vcmEnter (overrides : Dict) (st : FabricState) : Dict × FabricState :=
  (st.env, { st with env := dictUpdate st.env overrides })

/-- `_VagrantConnectionManager.__exit__` (vagrant.py): invalidate the
cached transport session keyed by the current `env.host_string`
(`del connections[env.host_string]`, modelled at the spec boundary as
removal of the key), then `env.clear()` and
`env.update(self.original_settings)`.  A missing `host_string` raises
AttributeError. -/
def vcmExit (snapshot : Dict) (st : FabricState) : Except PyExc FabricState :=
  match dictGet st.env "host_string" with
  | none => .error (.attributeError "host_string")
  | some hs => .ok ⟨dictUpdate [] snapshot, st.connections.erase hs⟩

/-- `with box.connect(): body` — the manager mutates global state when it
is constructed, and `__exit__` runs on every exit path out of the block,
including when `body` raises (its exception is the second component). -/
def withConnect (overrides : Dict) (body : FabricState → FabricState × Option PyExc)
    (st : FabricState) : FabricState × Option PyExc :=
  let snapshot := (vcmEnter overrides st).1
  let st2 := (body (vcmEnter overrides st).2).1
  let bodyExc := (body (vcmEnter overrides st).2).2
  match vcmExit snapshot st2 with
  | .error e => (st2, some e)
  | .ok st3 => (st3, bodyExc)

/-! ## `VagrantContext.ssh_config` (vagrant.py) -/

/-- The lines `ssh_config` keeps: all output lines after the first whose
strip is non-blank (`output.splitlines()[1:]`, then the comprehension
filter `if l.strip()`). -/
def sshKeptLines (output : String) : List String :=
  ((pySplitlines output).drop 1).filter (fun l => pyStrip l ≠ "")

/-- The key of a kept line: the text before the first space of the
stripped line (`l.strip().split(" ", 1)[0]`). -/
def sshKeyOf (l : String) : String := (pySplitSpace1 (pyStrip l)).headD ""

/-- The value of a kept line: the text after the first space of the
stripped line (`l.strip().split(" ", 1)[1]`). -/
def sshValOf (l : String) : String := ((pySplitSpace1 (pyStrip l)).drop 1).headD ""

/-- `VagrantContext.ssh_config` (vagrant.py): drop the first line of the
`vagrant ssh-config` output, keep lines whose strip is non-blank, split
each stripped line at the first space, build a dict, then lowercase the
keys.  A kept line without a space yields a 1-element sequence and makes
`dict(...)` raise ValueError. -/
def ssh_config (output : String) : Except PyExc Dict :=
  match (sshKeptLines output).mapM (fun l =>
      match pySplitSpace1 (pyStrip l) with
      | [k, v] => some (k, v)
      | _ => none) with
  | none => .error (.valueError "dictionary update sequence element is not length 2")
  | some pairs =>
    .ok (dictUpdate [] ((dictUpdate [] pairs).map (fun p => (pyLower p.1, p.2))))

lemma mapM_ssh_pairs (ls : List String)
    (h : ∀ l ∈ ls, (pySplitSpace1 (pyStrip l)).length = 2) :
    (ls.mapM fun l =>
        match pySplitSpace1 (pyStrip l) with
        | [k, v] => some (k, v)
        | _ => none) =
      some (ls.map fun l => (sshKeyOf l, sshValOf l)) := by
  induction ls with
  | nil => rfl
  | cons l rest ih =>
    have h2 := h l (by simp)
    rcases hsp : pySplitSpace1 (pyStrip l) with _ | ⟨k, _ | ⟨v, tail⟩⟩
    · rw [hsp] at h2; simp at h2
    · rw [hsp] at h2; simp at h2
    · rcases tail with _ | ⟨x, xs⟩
      · have hrest := ih (fun y hy => h y (by simp [hy]))
        simp only [List.mapM_cons, hsp, hrest, sshKeyOf, sshValOf]
        simp [hsp]
      · rw [hsp] at h2; simp at h2

/-! ## `VagrantContext.status` (vagrant.py) -/

/-- What `status` returns: the whole map, or a single `.get` lookup. -/
inductive StatusRet where
  | map (d : Dict)
  | one (v : Option String)
deriving DecidableEq, Repr

/-- Indices of the blank lines of the listing
(`[idx for idx, x in enumerate(lines) if x == '']`). -/
def blankIdxs (lines : List String) : List Nat :=
  (lines.enum.filter (fun p => p.2 = "")).map (fun p => p.1)

/-- One data row: `re.split("\s+", line)`, name first, the remaining
fields joined by single spaces. -/
def statusRow (line : String) : String × String :=
  let parts := reSplitWS line
  (parts.headD "", " ".intercalate (parts.drop 1))

/-- The section of the listing delimited by the first two blank lines
(empty if there are fewer than two). -/
def sectionOf (output : String) : List String :=
  let lines := pySplitlines output
  match blankIdxs lines with
  | start :: stop :: _ => (lines.drop (start + 1)).take (stop - (start + 1))
  | _ => []

/-- The name-to-state map parsed from the section delimited by the first
two blank lines of the listing. -/
def statusMapOf (output : String) : Dict :=
  dictUpdate [] ((sectionOf output).map statusRow)

/-- `VagrantContext.status` (vagrant.py): parse the rows between the
first two blank lines into a map; with a truthy `vm` return
`status_map.get(vm)`, else the whole map.  Fewer than two blank lines
makes the tuple unpacking raise ValueError. -/
def status (output : String) (vm : Option String) : Except PyExc StatusRet :=
  let lines := pySplitlines output
  match blankIdxs lines with
  | start :: stop :: _ =>
    let sectionLines := (lines.drop (start + 1)).take (stop - (start + 1))
    let status_map := dictUpdate [] (sectionLines.map statusRow)
    match vm with
    | some q =>
      if q = "" then .ok (.map status_map) else .ok (.one (dictGet status_map q))
    | none => .ok (.map status_map)
  | _ => .error (.valueError "need more than 1 value to unpack")

/-! ## Packaging resolver: `resolve_package_vagrantfile` (build.py) -/

/-- An untyped Python value passed as the `vfile` argument. -/
inductive PyVal where
  | int (n : Int)
  | str (s : String)
deriving DecidableEq, Repr

def VFILE_NONE : Int := 0
def VFILE_USE_CURRENT : Int := 1
def VFILE_COPY_FROM_BASE : Int := 2

/-- `VFILE_STRATEGY_MAP` (build.py). -/
def VFILE_STRATEGY_MAP : List (String × Int) :=
  [("inherit", VFILE_COPY_FROM_BASE), ("none", VFILE_NONE),
   ("current", VFILE_USE_CURRENT)]

/-- `get_inherited_vagrantfile` (build.py): the path of the base box's
bundled Vagrantfile if it exists, else `None`.  `os.path.join` is spelled
out for the relative components the source passes. -/
def get_inherited_vagrantfile (basebox vagrant_home : String)
    (fileExists : String → Bool) : Option String :=
  let basefile := vagrant_home ++ "/.vagrant.d/boxes/" ++ basebox ++ "/include/_Vagrantfile"
  if fileExists basefile then some basefile else none

/-- `resolve_package_vagrantfile` (build.py).  The `box` argument is
represented by its `name` and `directory` attributes as plain strings
(only these are read by the dispatch); `fileExists` and `fileRead` are
the filesystem oracles behind cuisine.  The result is `some text` or
`none` (the Python `None` returned for `VFILE_NONE`).

For a string argument the source evaluates
`type(vfile) in types.StringType`.  `types.StringType` is the `str` type
object itself, not the `types.StringTypes` tuple (compare vagrant.py,
which uses the plural form), and a membership test against a type object
raises TypeError — so every string input raises before any
classification happens.  For the recognized code `VFILE_COPY_FROM_BASE`,
`file_read(None)` (no inherited Vagrantfile) also raises TypeError. -/
def resolve_package_vagrantfile (vfile : PyVal) (boxName boxDirectory : String)
    (fileExists : String → Bool) (fileRead : String → String) :
    Except PyExc (Option String) :=
  match vfile with
  | .str _ => .error (.typeError "argument of type type is not iterable")
  | .int n =>
    if (VFILE_STRATEGY_MAP.map (fun p => p.2)).contains n then
      if n = VFILE_COPY_FROM_BASE then
        match get_inherited_vagrantfile boxName "$HOME" fileExists with
        | some path => .ok (some (fileRead path))
        | none => .error (.typeError "coercing to Unicode: NoneType found")
      else if n = VFILE_USE_CURRENT then
        .ok (some (fileRead (boxDirectory ++ "/Vagrantfile")))
      else .ok none
    else .error (.valueError ("Invalid vagrantfile strategy code: " ++ toString n))

/-! ## `VagrantContext.package` call binding (vagrant.py) -/

/-- The formal parameter names of `VagrantContext.package` (vagrant.py):
`def package(self, vm=None, base=None, output=None, include=None,
vagrantfile=None)`.  There is no `install_as` parameter. -/
def package_params : List String := ["vm", "base", "output", "include", "vagrantfile"]

/-- Python keyword binding for a call of `VagrantContext.package` with the
given keyword names: an unexpected keyword raises TypeError before the
body runs.  On a successful call the body runs `vagrant package`
(materializing and unlinking a temp file when needed); it runs no
`vagrant box remove` and no `vagrant box add`, so the returned event list
contains neither. -/
def package_call (kwargs : List String) : Except PyExc (List Event) :=
  if kwargs.all (fun k => package_params.contains k) then .ok [.packageCmd]
  else .error (.typeError "package got an unexpected keyword argument")

/-! ## The decorated build: `wrapper` and `tempbox` (build.py) -/

/-- Oracle for the two external outcomes the failure-path claims range
over: whether the provisioning procedure raises, and whether
`vagrant destroy --force` succeeds. -/
structure BuildOracle where
  provisionOk : Bool
  destroyOk : Bool
deriving DecidableEq, Repr

/-- The attribute names available on a `VagrantContext` instance
(vagrant.py): instance attributes set in `__init__` plus class-level
methods and dicts.  `VagrantBox.__getattr__` forwards lookups here;
`unregister` is defined on `VirtualBox`, not on `VagrantContext`. -/
def vagrantContextAttrs : List String :=
  ["directory", "host_string", "execmode", "loglevel", "_uuid", "_ip",
   "execution_context", "virtualbox", "uuid", "ip", "info", "list_boxes",
   "up", "reload", "halt", "destroy", "_up", "_down", "ssh_config",
   "package", "resume", "suspend", "status", "connect",
   "_connection_settings", "rewrite_vagrantfile", "read_vagrantfile"]

/-- The `finally` destroy step of `tempbox` (build.py):
`try: vagrant.destroy(force=True) except: vagrant.unregister(delete=True)`.
`vagrant` is a `VagrantBox` whose `__getattr__` forwards to
`VagrantContext`; looking up `unregister` there raises AttributeError
inside the except block, so the intended low-level fallback never runs. -/
def tempboxDestroyStep (destroyOk : Bool) : List Event × Option PyExc :=
  if destroyOk then ([.destroyCmd true], none)
  else if vagrantContextAttrs.contains "unregister" then
    ([.destroyCmd true, .unregisterCmd true], none)
  else ([.destroyCmd true], some (.attributeError "unregister"))

/-- `with box.connect(): result = func(*a, **kw)` inside the wrapper:
entering brings the VM up and applies the connection overlay; the overlay
is exited on both outcomes of the provisioning procedure. -/
def wrapperConnectBody (provisionOk : Bool) : List Event × Option PyExc :=
  ([.bringUp, .enterOverlay, .provisionCall, .exitOverlay],
   if provisionOk then none else some .provisioning)

/-- The packaging tail of the wrapper (build.py), reached only when the
provisioning procedure returned:
`vfile_text = resolve_package_vagrantfile(package_vfile, box)` evaluates
`box.name`, which `VagrantBox` forwards to `VagrantContext` — an
attribute it does not have — and then
`box.package(vagrantfile=..., install_as=..., output=...)` passes a
keyword `VagrantContext.package` does not accept. -/
def wrapperPackagingSteps : List Event × Option PyExc :=
  if vagrantContextAttrs.contains "name" then
    match package_call ["vagrantfile", "install_as", "output", "vm"] with
    | .ok evs => (evs, none)
    | .error e => ([], some e)
  else ([], some (.attributeError "name"))

/-- The body of the wrapper's `with tempbox(...) as box:` block. -/
def wrapperBody (o : BuildOracle) : List Event × Option PyExc :=
  match (wrapperConnectBody o.provisionOk).2 with
  | some e => ((wrapperConnectBody o.provisionOk).1, some e)
  | none =>
    ((wrapperConnectBody o.provisionOk).1 ++ wrapperPackagingSteps.1,
     wrapperPackagingSteps.2)

/-- `tempbox` (build.py) around a with-block body: stage the base
(`base.ensure()`), make the scratch directory, write the rendered
Vagrantfile, run the body, then tear down: the destroy step, scratch
directory removal, `base.clean()`.  An exception raised by the destroy
step replaces the body's exception (Python finally semantics); the outer
finally always runs. -/
def tempboxRun (o : BuildOracle) (b : Base) (boxes : List String)
    (body : List Event × Option PyExc) : List Event × Option PyExc × List String :=
  let ens := Base.ensure b boxes
  let fin := tempboxDestroyStep o.destroyOk
  let exc := match fin.2 with
    | some e => some e
    | none => body.2
  let cln := Base.clean ens.1 ens.2.1
  (ens.2.2 ++ [.mktemp, .writeVagrantfile] ++ body.1 ++ fin.1
     ++ [.rmBuildDir] ++ cln.2,
   exc, cln.1)

/-- The decorated build `wrapper` (build.py).  With the process-wide
current-build marker set (`self.__subject__ is not None`) it calls the
provisioning procedure directly and returns; otherwise it runs the full
`tempbox` orchestration around `wrapperBody`.  `none` models an
exception from `Base.__init__` itself. -/
def wrapperRun (o : BuildOracle) (subjectSet : Bool) (base : String)
    (boxes : List String) (fileExists : String → Bool) :
    Option (List Event × Option PyExc × List String) :=
  if subjectSet then
    some ([.provisionCall],
      (if o.provisionOk then none else some .provisioning), boxes)
  else
    (Base.init base boxes fileExists).map fun b =>
      tempboxRun o b boxes (wrapperBody o)

/-! ## Claim theorems -/

/-- C1 (code_bug evaluation at the failing input): when the provisioning
procedure raises during an orchestrated build and `vagrant destroy
--force` then fails, packaging is indeed skipped, the destroy is
attempted, the scratch directory is removed and the base image staged by
this build is unstaged — but the claimed forced low-level
unregister-and-delete fallback never executes: the fallback attribute
lookup itself raises AttributeError (no `unregisterCmd` event appears),
and that AttributeError replaces the original provisioning exception
instead of re-raising it after teardown. -/
theorem build_failure_fallback_attribute_error :
    wrapperRun ⟨false, false⟩ false "/tmp/base.box" []
        (fun p => p == "/tmp/base.box") =
      some ([.boxAdd "base" "/tmp/base.box", .mktemp, .writeVagrantfile,
             .bringUp, .enterOverlay, .provisionCall, .exitOverlay,
             .destroyCmd true, .rmBuildDir, .boxRemove "base"],
            some (.attributeError "unregister"), []) ∧
    Event.unregisterCmd true ∉
      [Event.boxAdd "base" "/tmp/base.box", .mktemp, .writeVagrantfile,
       .bringUp, .enterOverlay, .provisionCall, .exitOverlay,
       .destroyCmd true, .rmBuildDir, .boxRemove "base"] ∧
    Event.packageCmd ∉
      [Event.boxAdd "base" "/tmp/base.box", .mktemp, .writeVagrantfile,
       .bringUp, .enterOverlay, .provisionCall, .exitOverlay,
       .destroyCmd true, .rmBuildDir, .boxRemove "base"] := by
  refine ⟨by decide, by decide, by decide⟩

/-- C3 (code_bug): `VagrantContext.package` has no `install_as`
parameter, so every package call passing that keyword — as both the
build orchestrator and the CLI do — raises TypeError at keyword binding;
the body never runs, so no existing image is removed and no artifact is
installed under the name. -/
theorem package_install_as_type_error (kwargs : List String)
    (h : "install_as" ∈ kwargs) :
    package_call kwargs =
      .error (.typeError "package got an unexpected keyword argument") := by
  have hfalse : kwargs.all (fun k => package_params.contains k) = false := by
    cases hc : kwargs.all (fun k => package_params.contains k)
    · rfl
    · have := List.all_eq_true.mp hc _ h
      exact absurd this (by decide)
  unfold package_call
  rw [hfalse]
  rfl

/-- C3 witness: the orchestrator's own packaging call
`box.package(vagrantfile=..., install_as=..., output=...)` (with the
proxied `vm`). -/
theorem package_install_as_type_error_witness :
    "install_as" ∈ ["vagrantfile", "install_as", "output", "vm"] ∧
    package_call ["vagrantfile", "install_as", "output", "vm"] =
      .error (.typeError "package got an unexpected keyword argument") :=
  ⟨by decide, package_install_as_type_error _ (by decide)⟩

/-- C5: unstaging is a no-op unless `staged ∧ ¬already_installed`
(`installed ∧ ¬originally_installed` in the source); for a reference
string already in the installed set at construction, `already_installed`
is true, staging is a no-op, unstaging afterwards is a no-op and the
image remains installed. -/
theorem unstage_invariant_and_preinstalled_noop
    (b : Base) (boxes : List String) (s : String) (fe : String → Bool)
    (hmem : s ∈ boxes) :
    (¬ (b.installed = true ∧ b.originally_installed = false) →
       Base.clean b boxes = (boxes, [])) ∧
    Base.init s boxes fe = some ⟨s, some s, none, true, true, s⟩ ∧
    Base.ensure ⟨s, some s, none, true, true, s⟩ boxes =
      (⟨s, some s, none, true, true, s⟩, boxes, []) ∧
    Base.clean ⟨s, some s, none, true, true, s⟩ boxes = (boxes, []) ∧
    s ∈ boxes := by
  refine ⟨?_, ?_, rfl, rfl, hmem⟩
  · intro hcond
    have hcf : (b.installed && !b.originally_installed) = false := by
      rcases hb1 : b.installed <;> rcases hb2 : b.originally_installed <;>
        simp_all
    simp [Base.clean, hcf]
  · unfold Base.init
    rw [if_pos hmem]

/-- C5 witness. -/
theorem unstage_invariant_and_preinstalled_noop_witness :
    ("precise64" ∈ ["other", "precise64"]) ∧
    (¬ ((⟨"x", none, none, false, false, "x"⟩ : Base).installed = true ∧
        (⟨"x", none, none, false, false, "x"⟩ : Base).originally_installed = false) →
      Base.clean ⟨"x", none, none, false, false, "x"⟩ ["other", "precise64"] =
        (["other", "precise64"], [])) ∧
    Base.init "precise64" ["other", "precise64"] (fun _ => false) =
      some ⟨"precise64", some "precise64", none, true, true, "precise64"⟩ ∧
    Base.clean ⟨"precise64", some "precise64", none, true, true, "precise64"⟩
        ["other", "precise64"] = (["other", "precise64"], []) := by
  have h := unstage_invariant_and_preinstalled_noop
    ⟨"x", none, none, false, false, "x"⟩ ["other", "precise64"] "precise64"
    (fun _ => false) (by decide)
  exact ⟨by decide, h.1, h.2.1, h.2.2.2.1⟩

/-- C6 (code_bug evaluation): every string input to
`resolve_package_vagrantfile` — including the scenario inputs "inherit",
an existing file path, and "garbage" — raises TypeError at the
`type(vfile) in types.StringType` membership test against the `str` type
object, so no string is ever classified and "garbage" does not raise the
claimed InvalidStrategy ValueError; an unrecognized integer code does
fail with a ValueError naming the offending value. -/
theorem packaging_classifier_string_inputs_type_error :
    resolve_package_vagrantfile (.str "inherit") "basebox" "/build"
        (fun _ => false) (fun _ => "") =
      .error (.typeError "argument of type type is not iterable") ∧
    resolve_package_vagrantfile (.str "garbage") "basebox" "/build"
        (fun _ => false) (fun _ => "") =
      .error (.typeError "argument of type type is not iterable") ∧
    resolve_package_vagrantfile (.str "/tmp/x/Vagrantfile") "basebox" "/build"
        (fun p => p == "/tmp/x/Vagrantfile") (fun _ => "file-contents") =
      .error (.typeError "argument of type type is not iterable") ∧
    resolve_package_vagrantfile (.int 5) "basebox" "/build"
        (fun _ => false) (fun _ => "") =
      .error (.valueError "Invalid vagrantfile strategy code: 5") := by
  refine ⟨rfl, rfl, rfl, rfl⟩

/-- C7: the orchestrator runs the provisioning procedure directly —
no staging, no scratch directory, no bring-up, the trace is exactly the
direct call — exactly when the process-wide current-build marker is set;
a top-level invocation (marker unset) creates a fresh disposable build
environment: the scratch directory is made, the configuration written
and the VM brought up. -/
theorem nested_build_guard (o : BuildOracle) (s : String)
    (boxes : List String) (fe : String → Bool) (b : Base)
    (hinit : Base.init s boxes fe = some b) :
    wrapperRun o true s boxes fe =
      some ([.provisionCall],
        (if o.provisionOk then none else some .provisioning), boxes) ∧
    ∃ evs exc boxes2,
      wrapperRun o false s boxes fe = some (evs, exc, boxes2) ∧
      Event.mktemp ∈ evs ∧ Event.writeVagrantfile ∈ evs ∧
      Event.bringUp ∈ evs := by
  constructor
  · rfl
  · refine ⟨(tempboxRun o b boxes (wrapperBody o)).1,
      (tempboxRun o b boxes (wrapperBody o)).2.1,
      (tempboxRun o b boxes (wrapperBody o)).2.2, ?_, ?_, ?_, ?_⟩
    · simp [wrapperRun, hinit]
    · simp [tempboxRun]
    · simp [tempboxRun]
    · rcases o with ⟨p, d⟩
      cases p <;>
        simp [tempboxRun, wrapperBody, wrapperConnectBody, wrapperPackagingSteps]

/-- C7 witness: a nested and a top-level invocation on a concrete base. -/
theorem nested_build_guard_witness :
    Base.init "precise64" ["precise64"] (fun _ => false) =
      some ⟨"precise64", some "precise64", none, true, true, "precise64"⟩ ∧
    wrapperRun ⟨true, true⟩ true "precise64" ["precise64"] (fun _ => false) =
      some ([.provisionCall], none, ["precise64"]) ∧
    ∃ evs exc boxes2,
      wrapperRun ⟨true, true⟩ false "precise64" ["precise64"] (fun _ => false) =
        some (evs, exc, boxes2) ∧
      Event.mktemp ∈ evs ∧ Event.writeVagrantfile ∈ evs ∧
      Event.bringUp ∈ evs := by
  have h := nested_build_guard ⟨true, true⟩ "precise64" ["precise64"]
    (fun _ => false) ⟨"precise64", some "precise64", none, true, true, "precise64"⟩
    (by decide)
  exact ⟨by decide, h.1, h.2⟩

/-- C2: entering the connection overlay snapshots all prior targeting
state before mutating it, and exiting restores that snapshot exactly
(full replace) on every exit path — whatever the body did to the state
and whether or not it raised — after invalidating the transport-session
cache entry keyed by the current host string; when the body performs no
intervening mutation, the invalidated key is the synthetic host string
and the final targeting state is byte-identical to the pre-entry
snapshot. -/
theorem connection_overlay_exact_restore
    (uuid user port : String) (st : FabricState)
    (body : FabricState → FabricState × Option PyExc) (hs : String)
    (hnd : NodupKeys st.env)
    (hhost : dictGet (body (vcmEnter (connection_settings uuid user port) st).2).1.env
        "host_string" = some hs) :
    withConnect (connection_settings uuid user port) body st =
      (⟨st.env,
        (body (vcmEnter (connection_settings uuid user port) st).2).1.connections.erase hs⟩,
       (body (vcmEnter (connection_settings uuid user port) st).2).2) ∧
    ∀ bexc : Option PyExc,
      withConnect (connection_settings uuid user port) (fun s2 => (s2, bexc)) st =
        (⟨st.env, st.connections.erase
            (user ++ "@" ++ ("vagrant-temporary-" ++ uuid) ++ ":" ++ port)⟩,
         bexc) := by
  have hrestore : dictUpdate [] st.env = st.env := dictUpdate_nil st.env hnd
  constructor
  · have hhost2 := hhost
    simp only [vcmEnter] at hhost2
    simp only [withConnect, vcmEnter, vcmExit, hhost2, hrestore]
  · intro bexc
    have hkey : dictGet (dictUpdate st.env (connection_settings uuid user port))
        "host_string" =
        some (user ++ "@" ++ ("vagrant-temporary-" ++ uuid) ++ ":" ++ port) := by
      apply dictGet_dictUpdate_mem
      · show NodupKeys (connection_settings uuid user port)
        simp only [NodupKeys, connection_settings, List.map_cons, List.map_nil]
        decide
      · simp [connection_settings]
    simp only [withConnect, vcmEnter, vcmExit, hkey, hrestore]

/-- C2 witness: a concrete environment, with a body that raises. -/
theorem connection_overlay_exact_restore_witness :
    NodupKeys ([("host_string", "orig"), ("cwd", "/w")] : Dict) ∧
    withConnect (connection_settings "u1" "vagrant" "2222")
        (fun s2 => (s2, some .provisioning))
        ⟨[("host_string", "orig"), ("cwd", "/w")],
         ["vagrant@vagrant-temporary-u1:2222", "other"]⟩ =
      (⟨[("host_string", "orig"), ("cwd", "/w")], ["other"]⟩,
       some .provisioning) := by
  refine ⟨by decide, ?_⟩
  have h := (connection_overlay_exact_restore "u1" "vagrant" "2222"
      ⟨[("host_string", "orig"), ("cwd", "/w")],
       ["vagrant@vagrant-temporary-u1:2222", "other"]⟩
      (fun s2 => (s2, some .provisioning))
      "vagrant@vagrant-temporary-u1:2222"
      (by decide) (by decide)).2 (some .provisioning)
  rw [h]
  decide

/-- C4: for every reference string not in the installed set whose
construction succeeds, staging installs it under the first unused name of
the probing sequence `basename`, `basename-001`, `basename-002`, ...
(all earlier candidates are installed, so the choice is deterministic in
the installed-set snapshot), records it in the registry, and runs the
install command; and the spec scenario holds: with installed set
precise64, precise64-001 and basename precise64 the chosen name is
precise64-002. -/
theorem stage_first_free_unique_name (s : String) (boxes : List String)
    (fe : String → Bool) (b : Base)
    (hnot : s ∉ boxes) (hinit : Base.init s boxes fe = some b) :
    (∃ k, (Base.ensure b boxes).1.name = some (candidate b.basename k) ∧
       (Base.ensure b boxes).2.1 = boxes ++ [candidate b.basename k] ∧
       (Base.ensure b boxes).2.2 = [.boxAdd (candidate b.basename k) s] ∧
       candidate b.basename k ∉ boxes ∧
       ∀ i, i < k → candidate b.basename i ∈ boxes) ∧
    find_unique_name "precise64" ["precise64", "precise64-001"] =
      "precise64-002" := by
  have hfields : b.installed = false ∧ b.name = none ∧ b.box_string = s := by
    unfold Base.init at hinit
    rw [if_neg hnot] at hinit
    by_cases hfe : fe s = true
    · rw [if_pos hfe] at hinit
      cases hinit
      exact ⟨rfl, rfl, rfl⟩
    · rw [if_neg hfe] at hinit
      rcases hu : urlsplit s with _ | sr
      · rw [hu] at hinit
        simp at hinit
      · rw [hu] at hinit
        simp only [Option.map_some'] at hinit
        cases hinit
        exact ⟨rfl, rfl, rfl⟩
  obtain ⟨hinst, hname, hbs⟩ := hfields
  obtain ⟨k, hkEq, hkfree, hkmin⟩ := find_unique_name_spec b.basename boxes
  refine ⟨⟨k, ?_, ?_, ?_, hkfree, hkmin⟩, by decide⟩ <;>
    simp [Base.ensure, hinst, hname, pyOrStr, hkEq, hbs]

/-- C4 witness: staging the scenario URL against the scenario installed
set chooses precise64-002. -/
theorem stage_first_free_unique_name_witness :
    ("http://files.vagrantup.com/precise64.box" ∉
        (["precise64", "precise64-001"] : List String)) ∧
    Base.init "http://files.vagrantup.com/precise64.box"
        ["precise64", "precise64-001"] (fun _ => false) =
      some ⟨"http://files.vagrantup.com/precise64.box", none,
            some "http://files.vagrantup.com/precise64.box", false, false,
            "precise64"⟩ ∧
    (Base.ensure ⟨"http://files.vagrantup.com/precise64.box", none,
        some "http://files.vagrantup.com/precise64.box", false, false,
        "precise64"⟩ ["precise64", "precise64-001"]).1.name =
      some "precise64-002" := by
  refine ⟨by decide, by decide, ?_⟩
  obtain ⟨⟨k, hname, _, _, hfree, hmin⟩, _⟩ :=
    stage_first_free_unique_name "http://files.vagrantup.com/precise64.box"
      ["precise64", "precise64-001"] (fun _ => false)
      ⟨"http://files.vagrantup.com/precise64.box", none,
       some "http://files.vagrantup.com/precise64.box", false, false,
       "precise64"⟩ (by decide) (by decide)
  rcases k with _ | _ | _ | k
  · exact absurd (by decide : candidate "precise64" 0 ∈
      ["precise64", "precise64-001"]) hfree
  · exact absurd (by decide : candidate "precise64" 1 ∈
      ["precise64", "precise64-001"]) hfree
  · rw [hname]
    decide
  · exact absurd (hmin 2 (by omega)) (by decide)

/-- C8 counterexample: the `_uuid` cache is a class attribute of
`VagrantContext`, shared by all instances and keyed by the qualifier
alone, so after one context resolves the identifier for a qualifier, the
first lookup of a different context for the same qualifier returns the
first context's cached identifier — not a value resolved from its own
runstate metadata (no resolution takes place at all). -/
theorem uuid_cache_not_per_context_counterexample :
    (VagrantCtx.uuid
        (fun d _ => if d = "/a" then some "uuid-a" else some "uuid-b")
        (fun _ => true) ⟨"/b"⟩ none
        (VagrantCtx.uuid
          (fun d _ => if d = "/a" then some "uuid-a" else some "uuid-b")
          (fun _ => true) ⟨"/a"⟩ none []).2.1).1 = some "uuid-a" ∧
    (fun d (_ : String) => if d = "/a" then some "uuid-a" else some "uuid-b")
        "/b" "default" = some "uuid-b" ∧
    (VagrantCtx.uuid
        (fun d _ => if d = "/a" then some "uuid-a" else some "uuid-b")
        (fun _ => true) ⟨"/b"⟩ none
        (VagrantCtx.uuid
          (fun d _ => if d = "/a" then some "uuid-a" else some "uuid-b")
          (fun _ => true) ⟨"/a"⟩ none []).2.1).2.2.2 = false := by
  refine ⟨by decide, by decide, by decide⟩

/-- C8 amended: the instance identifier is resolved at most once per
instance-qualifier process-wide, not per (context, qualifier) pair: a
lookup on a cold qualifier resolves from the calling context's own
runstate metadata (issuing a bring-up first when the runstate file is
missing) and stores it in the class-level cache; every subsequent lookup
for that qualifier — from any context — returns the cached value, with
no resolution and no runstate read. -/
theorem uuid_resolved_once_per_qualifier_processwide
    (rs : String → String → Option String) (rfe : String → Bool)
    (ctx1 ctx2 : VagrantCtx) (vm : Option String) (cache : UuidCache)
    (hmiss : optTruthy (uuidCacheGet cache vm) = false)
    (htruthy : optTruthy (rs ctx1.directory (pyOrStr vm "default")) = true) :
    VagrantCtx.uuid rs rfe ctx1 vm cache =
      (rs ctx1.directory (pyOrStr vm "default"),
       uuidCacheSet cache vm (rs ctx1.directory (pyOrStr vm "default")),
       !rfe ctx1.directory, true) ∧
    VagrantCtx.uuid rs rfe ctx2 vm
        (uuidCacheSet cache vm (rs ctx1.directory (pyOrStr vm "default"))) =
      (rs ctx1.directory (pyOrStr vm "default"),
       uuidCacheSet cache vm (rs ctx1.directory (pyOrStr vm "default")),
       false, false) := by
  constructor
  · simp [VagrantCtx.uuid, hmiss]
  · have hget := uuidCacheGet_set_self cache vm
      (rs ctx1.directory (pyOrStr vm "default"))
    simp [VagrantCtx.uuid, hget, htruthy]

/-- C8 amended witness: two contexts, one qualifier. -/
theorem uuid_resolved_once_witness :
    optTruthy (uuidCacheGet [] none) = false ∧
    optTruthy ((fun d (_ : String) =>
        if d = "/a" then some "uuid-a" else some "uuid-b") "/a"
        (pyOrStr none "default")) = true ∧
    VagrantCtx.uuid
        (fun d _ => if d = "/a" then some "uuid-a" else some "uuid-b")
        (fun _ => true) ⟨"/b"⟩ none
        (uuidCacheSet [] none (some "uuid-a")) =
      (some "uuid-a", uuidCacheSet [] none (some "uuid-a"), false, false) := by
  refine ⟨by decide, by decide, ?_⟩
  have h := (uuid_resolved_once_per_qualifier_processwide
      (fun d _ => if d = "/a" then some "uuid-a" else some "uuid-b")
      (fun _ => true) ⟨"/a"⟩ ⟨"/b"⟩ none [] (by decide) (by decide)).2
  exact h

/-- C9 counterexample: `ssh_config` drops the first line of the listing
(`output.splitlines()[1:]`), so for a listing in which every non-blank
line is a key-value pair the returned mapping has no entry for the first
line — here, no "host" key for the line "Host default" — contradicting
the claim that the mapping contains an entry for every such line. -/
theorem ssh_config_drops_first_line_counterexample :
    ssh_config "Host default\nHostName 127.0.0.1" =
      .ok [("hostname", "127.0.0.1")] ∧
    dictGet [("hostname", "127.0.0.1")] "host" = none ∧
    pySplitlines "Host default\nHostName 127.0.0.1" =
      ["Host default", "HostName 127.0.0.1"] ∧
    (pySplitSpace1 (pyStrip "Host default")).length = 2 := by
  refine ⟨rfl, by decide, by decide, by decide⟩

/-- C9 amended: for every connection-parameter listing in which each
non-blank line after the first is one key-value pair (keys pairwise
distinct after lowercasing), `ssh_config` succeeds and the returned
mapping contains an entry for every such line — the first line of the
listing is dropped — with the key normalized to lower case and the value
the text after the first space of the stripped line, unchanged. -/
theorem ssh_config_parses_lines_after_first (out : String)
    (h2 : ∀ l ∈ sshKeptLines out, (pySplitSpace1 (pyStrip l)).length = 2)
    (hnd : ((sshKeptLines out).map (fun l => pyLower (sshKeyOf l))).Nodup) :
    ssh_config out =
      .ok ((sshKeptLines out).map (fun l => (pyLower (sshKeyOf l), sshValOf l))) ∧
    ∀ l ∈ sshKeptLines out,
      dictGet ((sshKeptLines out).map (fun l => (pyLower (sshKeyOf l), sshValOf l)))
          (pyLower (sshKeyOf l)) =
        some (sshValOf l) := by
  have hkeys : ((sshKeptLines out).map (fun l => (sshKeyOf l, sshValOf l))).map
      Prod.fst = (sshKeptLines out).map sshKeyOf := by
    rw [List.map_map]
    rfl
  have hndup : NodupKeys ((sshKeptLines out).map (fun l => (sshKeyOf l, sshValOf l))) := by
    unfold NodupKeys
    rw [hkeys]
    apply List.Nodup.of_map pyLower
    rw [List.map_map]
    exact hnd
  have hlowkeys :
      (((sshKeptLines out).map (fun l => (pyLower (sshKeyOf l), sshValOf l))).map
        Prod.fst) = (sshKeptLines out).map (fun l => pyLower (sshKeyOf l)) := by
    rw [List.map_map]
    rfl
  have hndlow : NodupKeys
      ((sshKeptLines out).map (fun l => (pyLower (sshKeyOf l), sshValOf l))) := by
    unfold NodupKeys
    rw [hlowkeys]
    exact hnd
  have hmapfuse :
      (((sshKeptLines out).map (fun l => (sshKeyOf l, sshValOf l))).map
        (fun p => (pyLower p.1, p.2))) =
      (sshKeptLines out).map (fun l => (pyLower (sshKeyOf l), sshValOf l)) := by
    rw [List.map_map]
    rfl
  constructor
  · unfold ssh_config
    rw [mapM_ssh_pairs (sshKeptLines out) h2]
    dsimp only
    rw [dictUpdate_nil _ hndup, hmapfuse, dictUpdate_nil _ hndlow]
  · intro l hl
    apply dictGet_of_mem _ _ _ hndlow
    exact List.mem_map_of_mem (fun l => (pyLower (sshKeyOf l), sshValOf l)) hl

/-- C9 amended witness: a four-line ssh-config listing. -/
theorem ssh_config_parses_lines_after_first_witness :
    (∀ l ∈ sshKeptLines "Host default\n  HostName 127.0.0.1\n  User vagrant\n  Port 2222",
      (pySplitSpace1 (pyStrip l)).length = 2) ∧
    ((sshKeptLines "Host default\n  HostName 127.0.0.1\n  User vagrant\n  Port 2222").map
      (fun l => pyLower (sshKeyOf l))).Nodup ∧
    ssh_config "Host default\n  HostName 127.0.0.1\n  User vagrant\n  Port 2222" =
      .ok [("hostname", "127.0.0.1"), ("user", "vagrant"), ("port", "2222")] ∧
    dictGet [("hostname", "127.0.0.1"), ("user", "vagrant"), ("port", "2222")]
        "port" = some "2222" := by
  refine ⟨by decide, by decide, ?_, by decide⟩
  have h := (ssh_config_parses_lines_after_first
    "Host default\n  HostName 127.0.0.1\n  User vagrant\n  Port 2222"
    (by decide) (by decide)).1
  rw [h]
  rfl

/-- C10: for every status listing with at least two blank lines, calling
`status` with a (truthy) instance-qualifier returns `.get` of the map
parsed from the section delimited by the first two blank lines — the
qualifier's parsed state string when it appears there, and None, not an
exception, when it does not; calling it with no qualifier returns the
full name-to-state mapping; and when the section's row names are
distinct, every parsed row is reachable in the mapping. -/
theorem status_lookup_and_full_map (out : String) (q : String)
    (hb : 2 ≤ (blankIdxs (pySplitlines out)).length) (hq : q ≠ "") :
    status out (some q) = .ok (.one (dictGet (statusMapOf out) q)) ∧
    (∀ st2, dictGet (statusMapOf out) q = some st2 →
        status out (some q) = .ok (.one (some st2))) ∧
    (dictGet (statusMapOf out) q = none →
        status out (some q) = .ok (.one none)) ∧
    status out none = .ok (.map (statusMapOf out)) ∧
    ((((sectionOf out).map statusRow).map Prod.fst).Nodup →
       ∀ p ∈ (sectionOf out).map statusRow,
         dictGet (statusMapOf out) p.1 = some p.2) := by
  rcases hbl : blankIdxs (pySplitlines out) with _ | ⟨i1, _ | ⟨i2, rest⟩⟩
  · rw [hbl] at hb
    simp at hb
  · rw [hbl] at hb
    simp at hb
  · have hsec : sectionOf out =
        ((pySplitlines out).drop (i1 + 1)).take (i2 - (i1 + 1)) := by
      simp only [sectionOf, hbl]
    have hmap : statusMapOf out = dictUpdate []
        ((((pySplitlines out).drop (i1 + 1)).take (i2 - (i1 + 1))).map statusRow) := by
      unfold statusMapOf
      rw [hsec]
    have hstatq : status out (some q) = .ok (.one (dictGet (statusMapOf out) q)) := by
      simp only [status, hbl]
      rw [if_neg hq, ← hmap]
    have hstatn : status out none = .ok (.map (statusMapOf out)) := by
      simp only [status, hbl]
      rw [← hmap]
    refine ⟨hstatq, ?_, ?_, hstatn, ?_⟩
    · intro st2 hst2
      rw [hstatq, hst2]
    · intro hnone
      rw [hstatq, hnone]
    · intro hnd2 p hp
      unfold statusMapOf
      rw [dictUpdate_nil _ hnd2]
      rcases p with ⟨a, b⟩
      exact dictGet_of_mem _ _ _ hnd2 hp

/-- C10 witness: the spec's status-parsing scenario listing. -/
theorem status_lookup_and_full_map_witness :
    2 ≤ (blankIdxs (pySplitlines
      "Current VM states:\n\nbox1 running\nbox2 poweroff\n\nfooter")).length ∧
    ("box1" : String) ≠ "" ∧
    status "Current VM states:\n\nbox1 running\nbox2 poweroff\n\nfooter"
        (some "box1") = .ok (.one (some "running")) ∧
    status "Current VM states:\n\nbox1 running\nbox2 poweroff\n\nfooter"
        (some "absent") = .ok (.one none) ∧
    status "Current VM states:\n\nbox1 running\nbox2 poweroff\n\nfooter"
        none = .ok (.map [("box1", "running"), ("box2", "poweroff")]) := by
  refine ⟨by decide, by decide, ?_, ?_, ?_⟩
  · have h := (status_lookup_and_full_map
      "Current VM states:\n\nbox1 running\nbox2 poweroff\n\nfooter" "box1"
      (by decide) (by decide)).2.1 "running" (by decide)
    exact h
  · have h := (status_lookup_and_full_map
      "Current VM states:\n\nbox1 running\nbox2 poweroff\n\nfooter" "absent"
      (by decide) (by decide)).2.2.1 (by decide)
    exact h
  · have h := (status_lookup_and_full_map
      "Current VM states:\n\nbox1 running\nbox2 poweroff\n\nfooter" "box1"
      (by decide) (by decide)).2.2.2.1
    rw [h]
    rfl

end Basebox
